import Mathlib

/-!
Shallow embedding of the reconciliation core of `secoya/ingress-mdns`.

The repository is a small Go program that watches Kubernetes Ingress
resources and keeps a set of mDNS (zeroconf) advertisements in sync with
the `.local`/`.kube`-suffixed rule hosts of those resources.  The files
`ingress-mdns.go`, `ingress-frontend-zeroconf.go` and the unnamed variant
(`src/unnamed/part_000`) share one design:

  * `LocalHostname`        — the record identity `(TLS flag, hostname)`;
  * `getIngressHostnames`  — pure extraction of desired records from an
                             Ingress (filter by suffix, strip suffix,
                             whole-resource TLS flag);
  * `registerHostnames`    — for each record: resolve a port, call the
                             advertiser (`zeroconf.RegisterProxy`), store the
                             returned handle in the `servers` map,
                             overwriting any previous entry; failures call
                             `log.Panic`, caught by a deferred `recover()`
                             at the function boundary;
  * `unregisterHostnames`  — for each record present in the map: shut the
                             handle down and delete the entry; absent
                             records are skipped;
  * `unregisterAllHostnames` — iterate the map and shut every handle down
                             (the map entries are not deleted);
  * the informer's `UpdateFunc` — if the extracted old and new hostname
                             sequences differ, unregister the old then
                             register the new.

The Go map `map[LocalHostname]*zeroconf.Server` is modelled as an
association list with unique keys; advertiser handles are modelled as
natural numbers drawn from a fresh-handle counter carried in the state.
Beside the map itself the state carries ghost trace fields: every handle
ever created (`created`), every `Shutdown()` call in order (`shutdowns`)
and the interleaved advertise/shutdown event trace (`events`).  The ghost
fields record exactly the advertiser calls the Go code makes and never
influence control flow.
-/

namespace IngressMdns

/-- `LocalHostname` from the source: an Ingress hostname in the `.local`
domain, `TLS bool; Hostname string`. -/
structure LocalHostname where
  TLS : Bool
  Hostname : String
  deriving DecidableEq, Repr

/-- One advertiser interaction: `advertise r h` models a successful
`zeroconf.RegisterProxy` call that returned handle `h` for record `r`;
`shutdown r h` models `server.Shutdown()` on handle `h` held for `r`. -/
inductive Event where
  | shutdown (record : LocalHostname) (handle : Nat)
  | advertise (record : LocalHostname) (handle : Nat)
  deriving DecidableEq, Repr

/-- The registry state: the Go map `servers` (association list with unique
keys, values are advertiser handles), the fresh-handle counter, and the
ghost trace fields described in the module header. -/
structure RegState where
  servers : List (LocalHostname × Nat)
  nextHandle : Nat
  created : List (Nat × LocalHostname)
  shutdowns : List Nat
  events : List Event
  deriving DecidableEq, Repr

/-- The state at process start: `var zeroconfServers = map[LocalHostname]*zeroconf.Server{}`. -/
def RegState.init : RegState := ⟨[], 0, [], [], []⟩

/-- Go map read `v, exists := m[k]` on the association-list model. -/
def mapLookup {α β : Type} [DecidableEq α] : List (α × β) → α → Option β
  | [], _ => none
  | (k', v) :: rest, k => if k' = k then some v else mapLookup rest k

/-- Go map write `m[k] = v`: overwrite the entry for `k` when present,
otherwise add one. -/
def mapInsert {α β : Type} [DecidableEq α] : List (α × β) → α → β → List (α × β)
  | [], k, v => [(k, v)]
  | (k', v') :: rest, k, v =>
    if k' = k then (k, v) :: rest else (k', v') :: mapInsert rest k v

/-- Go map `delete(m, k)`: remove the entry for `k` (on a unique-key map
this is the filter that drops every pair with key `k`). -/
def mapDelete {α β : Type} [DecidableEq α] (m : List (α × β)) (k : α) : List (α × β) :=
  m.filter (fun p => decide (p.1 ≠ k))

/-- `strings.HasSuffix(s, sfx)` over the character sequence of `s`. -/
def hasSuffix (s sfx : String) : Bool :=
  decide (sfx.data.length ≤ s.data.length) &&
    (s.data.drop (s.data.length - sfx.data.length) == sfx.data)

/-- `strings.TrimSuffix(s, sfx)`: drop the suffix when present, else `s`. -/
def trimSuffix (s sfx : String) : String :=
  if hasSuffix s sfx then String.mk (s.data.take (s.data.length - sfx.data.length)) else s

/-- One entry of `ingress.Spec.Rules`; only the `Host` field is read. -/
structure IngressRule where
  Host : String
  deriving DecidableEq, Repr

/-- The part of `ingress.Spec` the program reads: the `TLS` slice (a Go
`nil` slice is `none`, a non-`nil` slice is `some` of its — otherwise
unread — elements) and the rule list. -/
structure IngressSpec where
  TLS : Option (List Unit)
  Rules : List IngressRule
  deriving DecidableEq, Repr

/-- An Ingress resource object, restricted to the fields the program reads. -/
structure Ingress where
  Spec : IngressSpec
  deriving DecidableEq, Repr

/-- `getIngressHostnames` from the source, with the hard-coded suffix
(`".local"` in `ingress-mdns.go` and `part_000`, `".kube"` in
`ingress-frontend-zeroconf.go`) made a parameter:
`tls := ingress.Spec.TLS != nil`; iterate the rules; keep only hosts with
the suffix, stripped, in rule order; no deduplication. -/
def getIngressHostnames (sfx : String) (ingress : Ingress) : List LocalHostname :=
  ingress.Spec.Rules.foldl
    (fun hostnames rule =>
      if hasSuffix rule.Host sfx then
        hostnames ++ [{ TLS := ingress.Spec.TLS.isSome, Hostname := trimSuffix rule.Host sfx }]
      else
        hostnames)
    []

/-- The Hostname Extractor contract in the spec's words (§4.1/§8): keep, in
rule order, exactly the rule hosts ending in the configured suffix, strip
the suffix, and mark each record secure exactly when the resource has a TLS
configuration block. -/
def extractSpec (sfx : String) (ingress : Ingress) : List LocalHostname :=
  (ingress.Spec.Rules.filter (fun rule => hasSuffix rule.Host sfx)).map
    (fun rule => { TLS := ingress.Spec.TLS.isSome, Hostname := trimSuffix rule.Host sfx })

/-- `intstr.IntOrString`: a Kubernetes port identifier, either a number or
a name. -/
inductive IntOrString where
  | int (n : Int)
  | str (s : String)
  deriving DecidableEq, Repr

/-- One entry of `service.Spec.Ports`, restricted to the fields read by
`getPortMap`. -/
structure ServicePort where
  TargetPort : IntOrString
  NodePort : Int
  deriving DecidableEq, Repr

/-- The data interpolated into the `fmt.Errorf` message of the port mapper
(`"Unable to register <hostname>, ... target port <portIdentifier> not
present in ingress controller service <serviceName>"`). -/
structure LookupErr where
  hostname : String
  portIdentifier : IntOrString
  serviceName : String
  deriving DecidableEq, Repr

/-- `getPortMap` from `part_000`: fold the service's declared ports into a
map from target-port identifier to node port.  Building the map never
fails for an absent identifier; it is a plain fold over the declared
ports. -/
def getPortMap (ports : List ServicePort) : List (IntOrString × Int) :=
  ports.foldl (fun portMap port => mapInsert portMap port.TargetPort port.NodePort) []

/-- The closure returned by `getPortMapper` in `part_000`: pick the TLS or
cleartext identifier from `lh.TLS`, look it up in the prefetched map, and
return the node port, or the lookup error naming the hostname, the
identifier and the service. -/
def getPortMapper (portMap : List (IntOrString × Int)) (cleartextPort tlsPort : IntOrString)
    (serviceFQName : String) (lh : LocalHostname) : Except LookupErr Int :=
  if lh.TLS then
    match mapLookup portMap tlsPort with
    | some nodePort => Except.ok nodePort
    | none => Except.error ⟨lh.Hostname, tlsPort, serviceFQName⟩
  else
    match mapLookup portMap cleartextPort with
    | some nodePort => Except.ok nodePort
    | none => Except.error ⟨lh.Hostname, cleartextPort, serviceFQName⟩

/-- The loop body of `registerHostnames`, before the deferred `recover()`
is taken into account.  `resolve` is the port mapper (in `ingress-mdns.go`
it degenerates to the always-successful selection between the two
command-line port numbers); `advOK lh port` says whether
`zeroconf.RegisterProxy` succeeds for that record and port, in which case
the fresh handle `nextHandle` is returned and stored.  A `log.Panic`
(failed resolution or failed advertiser call) aborts the loop and escapes
as `Except.error` carrying the state at the moment of the panic. -/
def registerLoop (resolve : LocalHostname → Except LookupErr Int)
    (advOK : LocalHostname → Int → Bool) :
    List LocalHostname → RegState → Except RegState RegState
  | [], st => Except.ok st
  | lh :: rest, st =>
    match resolve lh with
    | Except.error _ => Except.error st
    | Except.ok port =>
      if advOK lh port then
        registerLoop resolve advOK rest
          { servers := mapInsert st.servers lh st.nextHandle
            nextHandle := st.nextHandle + 1
            created := st.created ++ [(st.nextHandle, lh)]
            shutdowns := st.shutdowns
            events := st.events ++ [Event.advertise lh st.nextHandle] }
      else
        Except.error st

/-- The deferred `recover()` at the top of `registerHostnames`: a panic
escaping the loop is caught, logged, and the function returns normally
with the state reached so far. -/
def recoverSt : Except RegState RegState → RegState
  | Except.ok st => st
  | Except.error st => st

/-- `registerHostnames` from the source: the register loop wrapped in the
deferred `recover()`. -/
def registerHostnames (resolve : LocalHostname → Except LookupErr Int)
    (advOK : LocalHostname → Int → Bool)
    (hostnames : List LocalHostname) (st : RegState) : RegState :=
  recoverSt (registerLoop resolve advOK hostnames st)

/-- `unregisterHostnames` from the source: for each listed record, if the
map holds a handle for it, shut the handle down and delete the entry;
otherwise skip it. -/
def unregisterHostnames : List LocalHostname → RegState → RegState
  | [], st => st
  | lh :: rest, st =>
    match mapLookup st.servers lh with
    | some server =>
      unregisterHostnames rest
        { servers := mapDelete st.servers lh
          nextHandle := st.nextHandle
          created := st.created
          shutdowns := st.shutdowns ++ [server]
          events := st.events ++ [Event.shutdown lh server] }
    | none => unregisterHostnames rest st

/-- `unregisterAllHostnames` from the source: iterate the map and call
`Shutdown()` on every held handle.  The loop body contains no
`delete(servers, local)`, so the map entries remain. -/
def unregisterAllHostnames (st : RegState) : RegState :=
  { st with
    shutdowns := st.shutdowns ++ st.servers.map (fun p => p.2)
    events := st.events ++ st.servers.map (fun p => Event.shutdown p.1 p.2) }

/-- The informer `UpdateFunc` of `ingress-mdns.go` and `part_000`: extract
hostnames from the old and the new snapshot; when the two sequences differ
(`!reflect.DeepEqual`), unregister all old then register all new. -/
def updateFunc (sfx : String) (resolve : LocalHostname → Except LookupErr Int)
    (advOK : LocalHostname → Int → Bool)
    (oldObj newObj : Ingress) (st : RegState) : RegState :=
  let oldHostnames := getIngressHostnames sfx oldObj
  let newHostnames := getIngressHostnames sfx newObj
  if oldHostnames = newHostnames then st
  else registerHostnames resolve advOK newHostnames (unregisterHostnames oldHostnames st)

/-- The informer `UpdateFunc` of `ingress-frontend-zeroconf.go`.  The
source reads `newIngress := oldObj.(*v1beta1.Ingress)` — both snapshots
come from `oldObj`, and the suffix in this variant is `".kube"`. -/
def updateFuncZeroconf (resolve : LocalHostname → Except LookupErr Int)
    (advOK : LocalHostname → Int → Bool)
    (oldObj newObj : Ingress) (st : RegState) : RegState :=
  let oldIngress := oldObj
  let newIngress := oldObj
  let oldHostnames := getIngressHostnames ".kube" oldIngress
  let newHostnames := getIngressHostnames ".kube" newIngress
  if oldHostnames = newHostnames then st
  else registerHostnames resolve advOK newHostnames (unregisterHostnames oldHostnames st)

/-- One notification from the resource event adapter. -/
inductive Notification where
  | add (obj : Ingress)
  | update (oldObj newObj : Ingress)
  | delete (obj : Ingress)
  deriving DecidableEq, Repr

/-- The `ResourceEventHandlerFuncs` dispatch: add registers the extracted
hostnames, delete unregisters them, update applies `updateFunc`. -/
def dispatch (sfx : String) (resolve : LocalHostname → Except LookupErr Int)
    (advOK : LocalHostname → Int → Bool)
    (n : Notification) (st : RegState) : RegState :=
  match n with
  | Notification.add obj => registerHostnames resolve advOK (getIngressHostnames sfx obj) st
  | Notification.delete obj => unregisterHostnames (getIngressHostnames sfx obj) st
  | Notification.update oldObj newObj => updateFunc sfx resolve advOK oldObj newObj st

/-- The single-consumer watch loop: notifications processed one at a time
in delivery order. -/
def processNotifications (sfx : String) (resolve : LocalHostname → Except LookupErr Int)
    (advOK : LocalHostname → Int → Bool)
    (ns : List Notification) (st : RegState) : RegState :=
  ns.foldl (fun st' n => dispatch sfx resolve advOK n st') st

/-- Record `lh` resolves and advertises successfully. -/
def recordOk (resolve : LocalHostname → Except LookupErr Int)
    (advOK : LocalHostname → Int → Bool) (lh : LocalHostname) : Prop :=
  ∃ port, resolve lh = Except.ok port ∧ advOK lh port = true

/-- Processing record `lh` panics: either port resolution fails or the
advertiser call fails. -/
def recordFails (resolve : LocalHostname → Except LookupErr Int)
    (advOK : LocalHostname → Int → Bool) (lh : LocalHostname) : Prop :=
  (∃ e, resolve lh = Except.error e) ∨
    (∃ port, resolve lh = Except.ok port ∧ advOK lh port = false)

/-- The handles created for record `lh` that have never been shut down:
each is one live mDNS broadcast for `lh`. -/
def liveHandlesFor (st : RegState) (lh : LocalHostname) : List Nat :=
  (st.created.filter (fun p => decide (p.2 = lh) && !(decide (p.1 ∈ st.shutdowns)))).map
    (fun p => p.1)

/-- Replaying one advertiser event against the `servers` map: a shutdown
event is always followed in the code by `delete(servers, local)`, an
advertise event by `servers[local] = server`. -/
def applyEvent (m : List (LocalHostname × Nat)) : Event → List (LocalHostname × Nat)
  | Event.shutdown r _ => mapDelete m r
  | Event.advertise r h => mapInsert m r h

/-- The registry map after each successive advertiser event, starting from
`m` (first element `m` itself): the intermediate registry states of a run
that emits `evs`. -/
def replayStates (m : List (LocalHostname × Nat)) (evs : List Event) :
    List (List (LocalHostname × Nat)) :=
  evs.scanl applyEvent m

/-! ## Basic facts about the Go-map model -/

theorem mapLookup_cons {α β : Type} [DecidableEq α] (k' : α) (v : β) (rest : List (α × β))
    (k : α) : mapLookup ((k', v) :: rest) k = if k' = k then some v else mapLookup rest k := rfl

theorem mapInsert_cons {α β : Type} [DecidableEq α] (k' : α) (v' : β) (rest : List (α × β))
    (k : α) (v : β) :
    mapInsert ((k', v') :: rest) k v
      = if k' = k then (k, v) :: rest else (k', v') :: mapInsert rest k v := rfl

theorem mapDelete_nil {α β : Type} [DecidableEq α] (k : α) :
    mapDelete ([] : List (α × β)) k = [] := rfl

theorem mapDelete_cons {α β : Type} [DecidableEq α] (k' : α) (v' : β) (rest : List (α × β))
    (k : α) :
    mapDelete ((k', v') :: rest) k
      = if k' = k then mapDelete rest k else (k', v') :: mapDelete rest k := by
  by_cases h : k' = k <;> simp [mapDelete, List.filter_cons, h]

theorem mapLookup_mapInsert_self {α β : Type} [DecidableEq α] (m : List (α × β)) (k : α)
    (v : β) : mapLookup (mapInsert m k v) k = some v := by
  induction m with
  | nil => simp [mapInsert, mapLookup]
  | cons p rest ih =>
    obtain ⟨k', v'⟩ := p
    by_cases h : k' = k
    · simp [mapInsert_cons, h, mapLookup_cons]
    · simp [mapInsert_cons, h, mapLookup_cons, ih]

theorem mapLookup_mapInsert_ne {α β : Type} [DecidableEq α] (m : List (α × β)) (k : α)
    (v : β) (r : α) (h : r ≠ k) : mapLookup (mapInsert m k v) r = mapLookup m r := by
  induction m with
  | nil => simp [mapInsert, mapLookup, Ne.symm h]
  | cons p rest ih =>
    obtain ⟨k', v'⟩ := p
    by_cases hk : k' = k
    · subst hk
      simp [mapInsert_cons, mapLookup_cons, Ne.symm h]
    · simp only [mapInsert_cons, if_neg hk, mapLookup_cons, ih]

theorem mapLookup_mapDelete {α β : Type} [DecidableEq α] (m : List (α × β)) (k x : α) :
    mapLookup (mapDelete m k) x = if x = k then none else mapLookup m x := by
  induction m with
  | nil => simp [mapDelete_nil, mapLookup]
  | cons p rest ih =>
    obtain ⟨k', v'⟩ := p
    by_cases hk : k' = k
    · subst hk
      rw [mapDelete_cons, if_pos rfl, ih, mapLookup_cons]
      by_cases hx : x = k'
      · simp [hx]
      · simp [hx, Ne.symm hx]
    · rw [mapDelete_cons, if_neg hk, mapLookup_cons, ih, mapLookup_cons]
      by_cases hx : k' = x
      · subst hx
        simp [hk]
      · simp [hx]

/-! ## The Hostname Extractor -/

theorem getIngressHostnames_foldl (sfx : String) (tls : Bool) (rules : List IngressRule) :
    ∀ acc : List LocalHostname,
      rules.foldl
          (fun hostnames rule =>
            if hasSuffix rule.Host sfx then
              hostnames ++ [{ TLS := tls, Hostname := trimSuffix rule.Host sfx }]
            else hostnames)
          acc
        = acc ++ (rules.filter (fun rule => hasSuffix rule.Host sfx)).map
            (fun rule => { TLS := tls, Hostname := trimSuffix rule.Host sfx }) := by
  induction rules with
  | nil => intro acc; simp
  | cons x xs ih =>
    intro acc
    by_cases h : hasSuffix x.Host sfx
    · simp only [List.foldl_cons, if_pos h, ih, List.filter_cons, h, if_true, List.map_cons,
        List.append_assoc, List.cons_append, List.nil_append]
    · simp only [List.foldl_cons, if_neg h, ih, List.filter_cons, h, Bool.false_eq_true,
        if_false]

/-- C3.  For every Ingress resource `R`, `getIngressHostnames` returns, in
the order of `R`'s rule list, exactly those rule hosts that end in the
configured local suffix, each with the suffix stripped off, and every
returned record is marked secure exactly when `R` carries a TLS
configuration block (`Spec.TLS != nil`) — whole-resource granularity.  The
function is a pure total function and performs no deduplication: it equals
the order-preserving filter-and-map `extractSpec` on the nose. -/
theorem getIngressHostnames_eq_extractSpec (sfx : String) (ingress : Ingress) :
    getIngressHostnames sfx ingress = extractSpec sfx ingress := by
  unfold getIngressHostnames extractSpec
  rw [getIngressHostnames_foldl sfx ingress.Spec.TLS.isSome ingress.Spec.Rules]
  simp

/-- C9.  In the `ingress-frontend-zeroconf` variant the update handler
reads both snapshots from `oldObj` (`newIngress := oldObj.(*v1beta1.Ingress)`),
so the extracted old and new hostname sequences coincide, the
`reflect.DeepEqual` guard always fires, and every update notification
leaves the registry state — entries, handles, and traces — completely
unchanged, whatever the new resource snapshot contains. -/
theorem updateFuncZeroconf_noop (resolve : LocalHostname → Except LookupErr Int)
    (advOK : LocalHostname → Int → Bool) (oldObj newObj : Ingress) (st : RegState) :
    updateFuncZeroconf resolve advOK oldObj newObj st = st := by
  unfold updateFuncZeroconf
  simp

/-! ## The register loop on failing records -/

theorem registerLoop_append_fails (resolve : LocalHostname → Except LookupErr Int)
    (advOK : LocalHostname → Int → Bool) (bad : LocalHostname)
    (hbad : recordFails resolve advOK bad) :
    ∀ (pre post : List LocalHostname) (st : RegState),
      registerLoop resolve advOK (pre ++ bad :: post) st
        = Except.error (registerHostnames resolve advOK pre st) := by
  intro pre
  induction pre with
  | nil =>
    intro post st
    simp only [List.nil_append, registerHostnames, registerLoop, recoverSt]
    rcases hbad with ⟨e, he⟩ | ⟨port, hp, ha⟩
    · rw [he]
    · rw [hp]
      simp [ha]
  | cons p rest ih =>
    intro post st
    simp only [List.cons_append, registerLoop, registerHostnames]
    cases hre : resolve p with
    | error e => simp [recoverSt]
    | ok port =>
      by_cases hadv : advOK p port
      · simp only [hadv, if_true]
        exact ih post _
      · simp [hadv, recoverSt]

/-- C4.  If the `k`-th record of a `registerAll` batch fails (port
resolution returns an error, or the advertiser call fails), the
`log.Panic` aborts the loop: no record after the `k`-th is processed and
the loop escapes with the state reached after the first `k-1` records
(first conjunct).  The deferred `recover()` at the `registerHostnames`
boundary catches the panic, so the call returns normally with exactly that
state (second conjunct), and the watch loop goes on to process every
subsequent notification from it (third conjunct). -/
theorem registerAll_failFast_recovered (sfx : String)
    (resolve : LocalHostname → Except LookupErr Int) (advOK : LocalHostname → Int → Bool)
    (obj : Ingress) (pre post : List LocalHostname) (bad : LocalHostname) (st : RegState)
    (hobj : getIngressHostnames sfx obj = pre ++ bad :: post)
    (hbad : recordFails resolve advOK bad) :
    registerLoop resolve advOK (pre ++ bad :: post) st
        = Except.error (registerHostnames resolve advOK pre st) ∧
    registerHostnames resolve advOK (pre ++ bad :: post) st
        = registerHostnames resolve advOK pre st ∧
    ∀ rest : List Notification,
      processNotifications sfx resolve advOK (Notification.add obj :: rest) st
        = processNotifications sfx resolve advOK rest
            (registerHostnames resolve advOK pre st) := by
  have hloop := registerLoop_append_fails resolve advOK bad hbad pre post st
  refine ⟨hloop, ?_, ?_⟩
  · rw [registerHostnames, hloop]
    rfl
  · intro rest
    simp only [processNotifications, List.foldl_cons, dispatch, hobj]
    rw [registerHostnames, hloop]
    rfl

/-- Concrete environment for the failure scenarios: the resolver rejects
the record named `"bad"` and maps every other record to port 80; the
advertiser always succeeds. -/
def resolveF : LocalHostname → Except LookupErr Int := fun lh =>
  if lh.Hostname = "bad" then Except.error ⟨lh.Hostname, IntOrString.str "https", "svc.ns"⟩
  else Except.ok 80

/-- An always-succeeding resolver (the `ingress-mdns.go` variant, where the
port comes from a command-line flag and resolution cannot fail). -/
def resolve0 : LocalHostname → Except LookupErr Int := fun _ => Except.ok 80

/-- An always-succeeding advertiser. -/
def advOK0 : LocalHostname → Int → Bool := fun _ _ => true

/-- An Ingress whose rules extract to `[good, bad, late]`. -/
def ingGBL : Ingress := ⟨⟨none, [⟨"good.local"⟩, ⟨"bad.local"⟩, ⟨"late.local"⟩]⟩⟩

/-- Witness for C4 at a concrete input: the batch `[good, bad, late]`
aborts at `bad`, the recovered state is the one after registering `good`
alone, and a subsequent notification is processed from it. -/
theorem registerAll_failFast_recovered_witness :
    registerLoop resolveF advOK0 ([⟨false, "good"⟩] ++ ⟨false, "bad"⟩ :: [⟨false, "late"⟩])
        RegState.init
      = Except.error (registerHostnames resolveF advOK0 [⟨false, "good"⟩] RegState.init) ∧
    registerHostnames resolveF advOK0
        ([⟨false, "good"⟩] ++ ⟨false, "bad"⟩ :: [⟨false, "late"⟩]) RegState.init
      = registerHostnames resolveF advOK0 [⟨false, "good"⟩] RegState.init ∧
    ∀ rest : List Notification,
      processNotifications ".local" resolveF advOK0 (Notification.add ingGBL :: rest)
          RegState.init
        = processNotifications ".local" resolveF advOK0 rest
            (registerHostnames resolveF advOK0 [⟨false, "good"⟩] RegState.init) :=
  registerAll_failFast_recovered ".local" resolveF advOK0 ingGBL
    [⟨false, "good"⟩] [⟨false, "late"⟩] ⟨false, "bad"⟩ RegState.init
    (by decide) (Or.inl ⟨⟨"bad", IntOrString.str "https", "svc.ns"⟩, rfl⟩)

/-! ## Successful register batches -/

theorem registerHostnames_ok_props (resolve : LocalHostname → Except LookupErr Int)
    (advOK : LocalHostname → Int → Bool) :
    ∀ (hs : List LocalHostname) (st : RegState),
      (∀ lh ∈ hs, recordOk resolve advOK lh) →
      (registerHostnames resolve advOK hs st).shutdowns = st.shutdowns ∧
      st.nextHandle ≤ (registerHostnames resolve advOK hs st).nextHandle ∧
      (∀ lh ∈ hs, ∃ h, mapLookup (registerHostnames resolve advOK hs st).servers lh = some h ∧
          st.nextHandle ≤ h) ∧
      (∀ r, r ∉ hs → mapLookup (registerHostnames resolve advOK hs st).servers r
          = mapLookup st.servers r) := by
  intro hs
  induction hs with
  | nil =>
    intro st _
    refine ⟨rfl, Nat.le_refl _, ?_, ?_⟩
    · intro lh hlh
      exact absurd hlh (List.not_mem_nil lh)
    · intro r _
      rfl
  | cons lh rest ih =>
    intro st hall
    obtain ⟨port, hp, ha⟩ := hall lh (List.mem_cons_self lh rest)
    have hstep : registerHostnames resolve advOK (lh :: rest) st
        = registerHostnames resolve advOK rest
            { servers := mapInsert st.servers lh st.nextHandle
              nextHandle := st.nextHandle + 1
              created := st.created ++ [(st.nextHandle, lh)]
              shutdowns := st.shutdowns
              events := st.events ++ [Event.advertise lh st.nextHandle] } := by
      simp only [registerHostnames, registerLoop, hp, ha, if_true]
    obtain ⟨ihsd, ihnh, ihmem, ihfr⟩ :=
      ih { servers := mapInsert st.servers lh st.nextHandle
           nextHandle := st.nextHandle + 1
           created := st.created ++ [(st.nextHandle, lh)]
           shutdowns := st.shutdowns
           events := st.events ++ [Event.advertise lh st.nextHandle] }
        (fun x hx => hall x (List.mem_cons_of_mem lh hx))
    rw [hstep]
    refine ⟨ihsd, Nat.le_trans (Nat.le_succ _) ihnh, ?_, ?_⟩
    · intro x hx
      rcases List.mem_cons.mp hx with hx | hx
      · subst hx
        by_cases hmem : x ∈ rest
        · obtain ⟨h, hlook, hle⟩ := ihmem x hmem
          exact ⟨h, hlook, Nat.le_trans (Nat.le_succ _) hle⟩
        · refine ⟨st.nextHandle, ?_, Nat.le_refl _⟩
          rw [ihfr x hmem]
          exact mapLookup_mapInsert_self st.servers x st.nextHandle
      · obtain ⟨h, hlook, hle⟩ := ihmem x hx
        exact ⟨h, hlook, Nat.le_trans (Nat.le_succ _) hle⟩
    · intro r hr
      have hr1 : r ≠ lh := fun e => hr (e ▸ List.mem_cons_self lh rest)
      have hr2 : r ∉ rest := fun e => hr (List.mem_cons_of_mem lh e)
      rw [ihfr r hr2]
      exact mapLookup_mapInsert_ne st.servers lh st.nextHandle r hr1

/-- C10.  `registerAll` is not atomic on error: when the records before
`bad` all succeed and `bad` fails, the call returns with every record
registered before the failure still present in the registry under a live
(never shut down) handle, every other key unchanged from the pre-call
state, and no shutdown performed — nothing is rolled back.  The freshness
hypothesis says the pre-call state never recorded a shutdown of a handle
the counter has not yet issued, which holds of every reachable state. -/
theorem registerAll_no_rollback (resolve : LocalHostname → Except LookupErr Int)
    (advOK : LocalHostname → Int → Bool) (pre post : List LocalHostname)
    (bad : LocalHostname) (st : RegState)
    (hpre : ∀ lh ∈ pre, recordOk resolve advOK lh)
    (hbad : recordFails resolve advOK bad)
    (hfresh : ∀ n ∈ st.shutdowns, n < st.nextHandle) :
    (∀ lh ∈ pre, ∃ h,
        mapLookup (registerHostnames resolve advOK (pre ++ bad :: post) st).servers lh = some h
          ∧ h ∉ (registerHostnames resolve advOK (pre ++ bad :: post) st).shutdowns) ∧
    (∀ r, r ∉ pre →
        mapLookup (registerHostnames resolve advOK (pre ++ bad :: post) st).servers r
          = mapLookup st.servers r) ∧
    (registerHostnames resolve advOK (pre ++ bad :: post) st).shutdowns = st.shutdowns := by
  have hfail : registerHostnames resolve advOK (pre ++ bad :: post) st
      = registerHostnames resolve advOK pre st := by
    rw [registerHostnames, registerLoop_append_fails resolve advOK bad hbad pre post st]
    rfl
  obtain ⟨hsd, _, hmem, hfr⟩ := registerHostnames_ok_props resolve advOK pre st hpre
  rw [hfail]
  refine ⟨?_, hfr, hsd⟩
  intro lh hlh
  obtain ⟨h, hlook, hle⟩ := hmem lh hlh
  refine ⟨h, hlook, ?_⟩
  rw [hsd]
  intro hmem'
  exact Nat.lt_irrefl h (Nat.lt_of_lt_of_le (hfresh h hmem') hle)

/-- Witness for C10 at a concrete input: in the batch `[good, bad, late]`
with `bad` failing, `good` stays registered with a live handle, other keys
are untouched, and no shutdown happens. -/
theorem registerAll_no_rollback_witness :
    (∀ lh ∈ [(⟨false, "good"⟩ : LocalHostname)], ∃ h,
        mapLookup (registerHostnames resolveF advOK0
            ([⟨false, "good"⟩] ++ ⟨false, "bad"⟩ :: [⟨false, "late"⟩])
            RegState.init).servers lh = some h
          ∧ h ∉ (registerHostnames resolveF advOK0
              ([⟨false, "good"⟩] ++ ⟨false, "bad"⟩ :: [⟨false, "late"⟩])
              RegState.init).shutdowns) ∧
    (∀ r, r ∉ [(⟨false, "good"⟩ : LocalHostname)] →
        mapLookup (registerHostnames resolveF advOK0
            ([⟨false, "good"⟩] ++ ⟨false, "bad"⟩ :: [⟨false, "late"⟩])
            RegState.init).servers r = mapLookup RegState.init.servers r) ∧
    (registerHostnames resolveF advOK0
        ([⟨false, "good"⟩] ++ ⟨false, "bad"⟩ :: [⟨false, "late"⟩])
        RegState.init).shutdowns = RegState.init.shutdowns :=
  registerAll_no_rollback resolveF advOK0 [⟨false, "good"⟩] [⟨false, "late"⟩]
    ⟨false, "bad"⟩ RegState.init
    (by
      intro lh hlh
      simp only [List.mem_singleton] at hlh
      subst hlh
      exact ⟨80, rfl, rfl⟩)
    (Or.inl ⟨⟨"bad", IntOrString.str "https", "svc.ns"⟩, rfl⟩)
    (by intro n hn; exact absurd hn (List.not_mem_nil n))

/-! ## Unregistering -/

theorem unregisterHostnames_preserves_absent :
    ∀ (hs : List LocalHostname) (st : RegState) (x : LocalHostname),
      mapLookup st.servers x = none →
      mapLookup (unregisterHostnames hs st).servers x = none := by
  intro hs
  induction hs with
  | nil => intro st x hx; exact hx
  | cons lh rest ih =>
    intro st x hx
    cases hl : mapLookup st.servers lh with
    | none =>
      simp only [unregisterHostnames, hl]
      exact ih st x hx
    | some server =>
      simp only [unregisterHostnames, hl]
      apply ih
      simp only [mapLookup_mapDelete]
      by_cases hxl : x = lh
      · simp [hxl]
      · simp [hxl, hx]

theorem unregisterHostnames_absent_after :
    ∀ (hs : List LocalHostname) (st : RegState) (lh : LocalHostname), lh ∈ hs →
      mapLookup (unregisterHostnames hs st).servers lh = none := by
  intro hs
  induction hs with
  | nil => intro st lh hlh; exact absurd hlh (List.not_mem_nil lh)
  | cons y rest ih =>
    intro st lh hlh
    rcases List.mem_cons.mp hlh with hlh | hlh
    · subst hlh
      cases hl : mapLookup st.servers lh with
      | none =>
        simp only [unregisterHostnames, hl]
        exact unregisterHostnames_preserves_absent rest st lh hl
      | some server =>
        simp only [unregisterHostnames, hl]
        apply unregisterHostnames_preserves_absent
        simp [mapLookup_mapDelete]
    · cases hl : mapLookup st.servers y with
      | none =>
        simp only [unregisterHostnames, hl]
        exact ih st lh hlh
      | some server =>
        simp only [unregisterHostnames, hl]
        exact ih _ lh hlh

theorem unregisterHostnames_all_absent_noop :
    ∀ (hs : List LocalHostname) (st : RegState),
      (∀ lh ∈ hs, mapLookup st.servers lh = none) →
      unregisterHostnames hs st = st := by
  intro hs
  induction hs with
  | nil => intro st _; rfl
  | cons lh rest ih =>
    intro st habs
    have hl := habs lh (List.mem_cons_self lh rest)
    simp only [unregisterHostnames, hl]
    exact ih st (fun x hx => habs x (List.mem_cons_of_mem lh hx))

/-- C7.  `unregisterAll` is idempotent: a second application of the same
record sequence finds every record already absent, so it changes nothing —
the registry, the set of shutdown calls, and the whole trace after two
applications equal those after one.  And on a sequence of records none of
which is in the registry, one application already changes nothing and
shuts down nothing (the state, its `shutdowns` trace included, is returned
unchanged). -/
theorem unregisterAll_idempotent (hs : List LocalHostname) (st : RegState) :
    unregisterHostnames hs (unregisterHostnames hs st) = unregisterHostnames hs st ∧
    ((∀ lh ∈ hs, mapLookup st.servers lh = none) → unregisterHostnames hs st = st) := by
  constructor
  · exact unregisterHostnames_all_absent_noop hs _
      (fun lh hlh => unregisterHostnames_absent_after hs st lh hlh)
  · exact unregisterHostnames_all_absent_noop hs st

/-- The record `{TLS: false, Hostname: "foo"}`. -/
def F0 : LocalHostname := ⟨false, "foo"⟩

/-- The record `{TLS: false, Hostname: "bar"}`. -/
def B0 : LocalHostname := ⟨false, "bar"⟩

/-- A reachable registry state broadcasting exactly `foo`: one entry with
live handle `0`. -/
def stFoo : RegState := ⟨[(F0, 0)], 1, [(0, F0)], [], []⟩

/-- An Ingress with the single rule host `foo.local` and no TLS block. -/
def oldIngFoo : Ingress := ⟨⟨none, [⟨"foo.local"⟩]⟩⟩

/-- An Ingress with the single rule host `bar.local` and no TLS block. -/
def newIngBar : Ingress := ⟨⟨none, [⟨"bar.local"⟩]⟩⟩

/-- Witness for C7 at concrete inputs: unregistering `[foo]` twice from
the one-entry state equals unregistering once, and unregistering `[foo]`
from the empty registry changes nothing. -/
theorem unregisterAll_idempotent_witness :
    unregisterHostnames [F0] (unregisterHostnames [F0] stFoo)
        = unregisterHostnames [F0] stFoo ∧
    unregisterHostnames [F0] RegState.init = RegState.init :=
  ⟨(unregisterAll_idempotent [F0] stFoo).1,
    (unregisterAll_idempotent [F0] RegState.init).2 (by decide)⟩

/-- Counterexample to C6 as stated: `unregisterAllHostnames` (the
teardown) contains no `delete(servers, local)`, so from the one-entry
state the registry mapping is left exactly as it was — not empty. -/
theorem teardown_leaves_entries :
    (unregisterAllHostnames stFoo).servers = stFoo.servers ∧ stFoo.servers ≠ [] := by
  exact ⟨rfl, by decide⟩

/-- C6 amended.  `teardown()` shuts down every handle held in the registry
exactly once — for every starting state whose held handles are
pairwise-distinct and not already shut down, as in every reachable state —
but it does not empty the registry mapping: the entries are left in place
(the program only calls it once, on process exit).  The claim's
"leaves the registry mapping empty" fails; see `teardown_leaves_entries`. -/
theorem teardown_shutdown_each_once (st : RegState)
    (hnodup : (st.servers.map (fun p => p.2)).Nodup)
    (hfresh : ∀ p ∈ st.servers, p.2 ∉ st.shutdowns) :
    (∀ p ∈ st.servers, (unregisterAllHostnames st).shutdowns.count p.2 = 1) ∧
    (unregisterAllHostnames st).servers = st.servers := by
  constructor
  · intro p hp
    have h0 : st.shutdowns.count p.2 = 0 := List.count_eq_zero.mpr (hfresh p hp)
    have h1 : (st.servers.map (fun q => q.2)).count p.2 = 1 :=
      List.count_eq_one_of_mem hnodup (List.mem_map_of_mem (fun q => q.2) hp)
    simp only [unregisterAllHostnames, List.count_append, h0, h1]
  · rfl

/-- Witness for the amended C6 at a concrete input: tearing down the
one-entry state shuts handle `0` down exactly once and keeps the entry. -/
theorem teardown_shutdown_each_once_witness :
    (∀ p ∈ stFoo.servers, (unregisterAllHostnames stFoo).shutdowns.count p.2 = 1) ∧
    (unregisterAllHostnames stFoo).servers = stFoo.servers :=
  teardown_shutdown_each_once stFoo (by decide) (by decide)

/-! ## Re-registration of an already-registered record -/

/-- Counterexample to C1 as stated: registering `[foo]` twice in a row
from the empty registry leaves TWO advertiser handles for `foo` that were
created and never shut down — the second `RegisterProxy` call starts a
second broadcast and the map overwrite discards the first handle without
`Shutdown()`, so "at most one non-shutdown advertisement handle per
record" is violated. -/
theorem registerAll_twice_two_live :
    (liveHandlesFor
        (registerHostnames resolve0 advOK0 [F0]
          (registerHostnames resolve0 advOK0 [F0] RegState.init))
        F0).length = 2 := by
  decide

/-- C1 amended.  Calling `registerAll([h])` twice in a row leaves exactly
one registry ENTRY for `h` (the second call's handle overwrites the
first), but the first handle is neither retained nor shut down: both
created handles stay live, i.e. the old broadcast leaks.  The uniqueness
invariant holds only for the registry mapping, not for advertiser
handles. -/
theorem registerAll_twice_overwrites_and_leaks
    (resolve : LocalHostname → Except LookupErr Int) (advOK : LocalHostname → Int → Bool)
    (lh : LocalHostname) (port : Int)
    (hres : resolve lh = Except.ok port) (hadv : advOK lh port = true) :
    (registerHostnames resolve advOK [lh]
        (registerHostnames resolve advOK [lh] RegState.init)).servers = [(lh, 1)] ∧
    (registerHostnames resolve advOK [lh]
        (registerHostnames resolve advOK [lh] RegState.init)).created = [(0, lh), (1, lh)] ∧
    (registerHostnames resolve advOK [lh]
        (registerHostnames resolve advOK [lh] RegState.init)).shutdowns = [] ∧
    liveHandlesFor
        (registerHostnames resolve advOK [lh]
          (registerHostnames resolve advOK [lh] RegState.init)) lh = [0, 1] := by
  have h1 : registerHostnames resolve advOK [lh] RegState.init
      = ⟨[(lh, 0)], 1, [(0, lh)], [], [Event.advertise lh 0]⟩ := by
    simp only [registerHostnames, registerLoop, hres, hadv, if_true, RegState.init]
    rfl
  rw [h1]
  have h2 : registerHostnames resolve advOK [lh]
        (⟨[(lh, 0)], 1, [(0, lh)], [], [Event.advertise lh 0]⟩ : RegState)
      = ⟨[(lh, 1)], 2, [(0, lh), (1, lh)], [],
          [Event.advertise lh 0, Event.advertise lh 1]⟩ := by
    simp only [registerHostnames, registerLoop, hres, hadv, if_true]
    simp [mapInsert_cons, recoverSt]
  rw [h2]
  refine ⟨rfl, rfl, rfl, ?_⟩
  simp [liveHandlesFor, List.filter]

/-- Witness for the amended C1 at a concrete input. -/
theorem registerAll_twice_overwrites_and_leaks_witness :
    (registerHostnames resolve0 advOK0 [F0]
        (registerHostnames resolve0 advOK0 [F0] RegState.init)).servers = [(F0, 1)] ∧
    (registerHostnames resolve0 advOK0 [F0]
        (registerHostnames resolve0 advOK0 [F0] RegState.init)).created = [(0, F0), (1, F0)] ∧
    (registerHostnames resolve0 advOK0 [F0]
        (registerHostnames resolve0 advOK0 [F0] RegState.init)).shutdowns = [] ∧
    liveHandlesFor
        (registerHostnames resolve0 advOK0 [F0]
          (registerHostnames resolve0 advOK0 [F0] RegState.init)) F0 = [0, 1] :=
  registerAll_twice_overwrites_and_leaks resolve0 advOK0 F0 80 rfl rfl

/-! ## Event traces and intermediate registry states

Each advertiser event emitted by the loops corresponds to exactly one
mutation of the `servers` map (a shutdown event to the `delete` that
follows it, an advertise event to the map store that follows it), so
replaying the emitted events gives the registry map after each mutation.
The next lemmas certify the replay at the endpoints. -/

theorem unregisterHostnames_replay :
    ∀ (hs : List LocalHostname) (st : RegState), ∃ Δ : List Event,
      (unregisterHostnames hs st).events = st.events ++ Δ ∧
      (unregisterHostnames hs st).servers = Δ.foldl applyEvent st.servers := by
  intro hs
  induction hs with
  | nil => intro st; exact ⟨[], by simp [unregisterHostnames], rfl⟩
  | cons lh rest ih =>
    intro st
    cases hl : mapLookup st.servers lh with
    | none =>
      simp only [unregisterHostnames, hl]
      exact ih st
    | some server =>
      simp only [unregisterHostnames, hl]
      obtain ⟨Δ, he, hsv⟩ :=
        ih { servers := mapDelete st.servers lh
             nextHandle := st.nextHandle
             created := st.created
             shutdowns := st.shutdowns ++ [server]
             events := st.events ++ [Event.shutdown lh server] }
      refine ⟨Event.shutdown lh server :: Δ, ?_, ?_⟩
      · rw [he]
        simp [List.append_assoc]
      · simp only [List.foldl_cons]
        exact hsv

theorem registerHostnames_replay (resolve : LocalHostname → Except LookupErr Int)
    (advOK : LocalHostname → Int → Bool) :
    ∀ (hs : List LocalHostname) (st : RegState), ∃ Δ : List Event,
      (registerHostnames resolve advOK hs st).events = st.events ++ Δ ∧
      (registerHostnames resolve advOK hs st).servers = Δ.foldl applyEvent st.servers := by
  intro hs
  induction hs with
  | nil => intro st; exact ⟨[], by simp [registerHostnames, registerLoop, recoverSt], rfl⟩
  | cons lh rest ih =>
    intro st
    cases hre : resolve lh with
    | error e =>
      simp only [registerHostnames, registerLoop, hre]
      exact ⟨[], by simp [recoverSt], rfl⟩
    | ok port =>
      by_cases hadv : advOK lh port
      · simp only [registerHostnames, registerLoop, hre, hadv, if_true]
        obtain ⟨Δ, he, hsv⟩ :=
          ih { servers := mapInsert st.servers lh st.nextHandle
               nextHandle := st.nextHandle + 1
               created := st.created ++ [(st.nextHandle, lh)]
               shutdowns := st.shutdowns
               events := st.events ++ [Event.advertise lh st.nextHandle] }
        refine ⟨Event.advertise lh st.nextHandle :: Δ, ?_, ?_⟩
        · rw [registerHostnames] at he
          rw [he]
          simp [List.append_assoc]
        · rw [registerHostnames] at hsv
          simp only [List.foldl_cons]
          exact hsv
      · simp only [registerHostnames, registerLoop, hre, hadv, if_false]
        exact ⟨[], by simp [recoverSt], rfl⟩

theorem updateFunc_replay (sfx : String) (resolve : LocalHostname → Except LookupErr Int)
    (advOK : LocalHostname → Int → Bool) (oldObj newObj : Ingress) (st : RegState) :
    ∃ Δ : List Event,
      (updateFunc sfx resolve advOK oldObj newObj st).events = st.events ++ Δ ∧
      (updateFunc sfx resolve advOK oldObj newObj st).servers
        = Δ.foldl applyEvent st.servers := by
  unfold updateFunc
  by_cases h : getIngressHostnames sfx oldObj = getIngressHostnames sfx newObj
  · rw [if_pos h]
    exact ⟨[], by simp, rfl⟩
  · rw [if_neg h]
    obtain ⟨Δ₁, he₁, hs₁⟩ :=
      unregisterHostnames_replay (getIngressHostnames sfx oldObj) st
    obtain ⟨Δ₂, he₂, hs₂⟩ :=
      registerHostnames_replay resolve advOK (getIngressHostnames sfx newObj)
        (unregisterHostnames (getIngressHostnames sfx oldObj) st)
    refine ⟨Δ₁ ++ Δ₂, ?_, ?_⟩
    · rw [he₂, he₁, List.append_assoc]
    · rw [hs₂, hs₁, List.foldl_append]

/-- C2.  For an update whose old extracted desired sequence is `[a, b]`
and whose new one is `[b, c]`, starting from a registry holding exactly
`{a, b}`: the handler unregisters all of the old set and then registers
all of the new set, so afterwards the registry holds exactly `{b, c}`, and
the emitted advertiser events are the two shutdowns (of `a` then `b`)
followed by the two registrations (of `b` then `c`) — in particular `a`'s
shutdown precedes `c`'s creation, and every unregister of the old set
precedes every register of the new set. -/
theorem update_withdraw_before_announce
    (resolve : LocalHostname → Except LookupErr Int) (advOK : LocalHostname → Int → Bool)
    (a b c : LocalHostname) (ha hb : Nat) (oldObj newObj : Ingress) (st : RegState)
    (hold : getIngressHostnames ".local" oldObj = [a, b])
    (hnew : getIngressHostnames ".local" newObj = [b, c])
    (hab : a ≠ b) (hbc : b ≠ c)
    (hservers : st.servers = [(a, ha), (b, hb)])
    (pb pc : Int) (hrB : resolve b = Except.ok pb) (haB : advOK b pb = true)
    (hrC : resolve c = Except.ok pc) (haC : advOK c pc = true) :
    (updateFunc ".local" resolve advOK oldObj newObj st).servers
        = [(b, st.nextHandle), (c, st.nextHandle + 1)] ∧
    (updateFunc ".local" resolve advOK oldObj newObj st).events
        = st.events ++ [Event.shutdown a ha, Event.shutdown b hb,
            Event.advertise b st.nextHandle, Event.advertise c (st.nextHandle + 1)] := by
  have hne : ([a, b] : List LocalHostname) ≠ [b, c] := by
    intro h
    injection h with h1 _
    exact hab h1
  have hlA : mapLookup st.servers a = some ha := by
    rw [hservers, mapLookup_cons, if_pos rfl]
  have hdelA : mapDelete st.servers a = [(b, hb)] := by
    rw [hservers, mapDelete_cons, if_pos rfl, mapDelete_cons, if_neg (Ne.symm hab),
      mapDelete_nil]
  have hlB : mapLookup (mapDelete st.servers a) b = some hb := by
    rw [hdelA, mapLookup_cons, if_pos rfl]
  have hdelB : mapDelete (mapDelete st.servers a) b = [] := by
    rw [hdelA, mapDelete_cons, if_pos rfl, mapDelete_nil]
  have hu : unregisterHostnames [a, b] st
      = ⟨[], st.nextHandle, st.created, st.shutdowns ++ [ha, hb],
          st.events ++ [Event.shutdown a ha, Event.shutdown b hb]⟩ := by
    simp only [unregisterHostnames, hlA, hlB, hdelB]
    simp
  unfold updateFunc
  rw [hold, hnew]
  simp only [hne, if_false, ite_false, hu]
  simp only [registerHostnames, registerLoop, hrB, haB, hrC, haC, if_true]
  constructor
  · simp [recoverSt, mapInsert_cons, mapInsert, hbc]
  · simp [recoverSt, List.append_assoc]

/-- The record `{TLS: false, Hostname: "a"}`. -/
def recA : LocalHostname := ⟨false, "a"⟩

/-- The record `{TLS: false, Hostname: "b"}`. -/
def recB : LocalHostname := ⟨false, "b"⟩

/-- The record `{TLS: false, Hostname: "c"}`. -/
def recC : LocalHostname := ⟨false, "c"⟩

/-- An Ingress extracting to `[a, b]`. -/
def ingAB : Ingress := ⟨⟨none, [⟨"a.local"⟩, ⟨"b.local"⟩]⟩⟩

/-- An Ingress extracting to `[b, c]`. -/
def ingBC : Ingress := ⟨⟨none, [⟨"b.local"⟩, ⟨"c.local"⟩]⟩⟩

/-- A registry state holding exactly `{a, b}` with handles `3` and `4`. -/
def stAB : RegState := ⟨[(recA, 3), (recB, 4)], 7, [(3, recA), (4, recB)], [], []⟩

/-- Witness for C2 at concrete inputs. -/
theorem update_withdraw_before_announce_witness :
    (updateFunc ".local" resolve0 advOK0 ingAB ingBC stAB).servers
        = [(recB, stAB.nextHandle), (recC, stAB.nextHandle + 1)] ∧
    (updateFunc ".local" resolve0 advOK0 ingAB ingBC stAB).events
        = stAB.events ++ [Event.shutdown recA 3, Event.shutdown recB 4,
            Event.advertise recB stAB.nextHandle, Event.advertise recC (stAB.nextHandle + 1)] :=
  update_withdraw_before_announce resolve0 advOK0 recA recB recC 3 4 ingAB ingBC stAB
    (by decide) (by decide) (by decide) (by decide) rfl 80 80 rfl rfl rfl rfl

/-- Counterexample to C5 as stated: updating the single rule host from
`foo.local` to `bar.local`, one of the intermediate registry states
reached while processing the update (after `foo`'s shutdown, before
`bar`'s registration) contains NEITHER `foo` nor `bar`, contradicting "at
least one of {foo, bar} in every intermediate state". -/
theorem update_foo_bar_neither_intermediate :
    ∃ m ∈ replayStates stFoo.servers
        ((updateFunc ".local" resolve0 advOK0 oldIngFoo newIngBar stFoo).events.drop
          stFoo.events.length),
      mapLookup m F0 = none ∧ mapLookup m B0 = none := by
  decide

/-- C5 amended.  Processing the update that changes the single rule host
from `foo.local` to `bar.local` emits exactly a shutdown of `foo` followed
by a registration of `bar`, so the registry map passes through exactly the
states `{foo}` → `{}` → `{bar}`: no intermediate state contains both
records, but one intermediate state (between the withdraw and the
announce) contains neither — the original "none containing neither" part
fails, see `update_foo_bar_neither_intermediate`. -/
theorem update_single_host_states
    (resolve : LocalHostname → Except LookupErr Int) (advOK : LocalHostname → Int → Bool)
    (f b : LocalHostname) (hf : Nat) (oldObj newObj : Ingress) (st : RegState)
    (hold : getIngressHostnames ".local" oldObj = [f])
    (hnew : getIngressHostnames ".local" newObj = [b])
    (hfb : f ≠ b) (hservers : st.servers = [(f, hf)])
    (port : Int) (hrB : resolve b = Except.ok port) (haB : advOK b port = true) :
    (updateFunc ".local" resolve advOK oldObj newObj st).events
        = st.events ++ [Event.shutdown f hf, Event.advertise b st.nextHandle] ∧
    replayStates st.servers [Event.shutdown f hf, Event.advertise b st.nextHandle]
        = [[(f, hf)], [], [(b, st.nextHandle)]] := by
  have hne : ([f] : List LocalHostname) ≠ [b] := by
    intro h
    injection h with h1 _
    exact hfb h1
  have hlF : mapLookup st.servers f = some hf := by
    rw [hservers, mapLookup_cons, if_pos rfl]
  have hdelF : mapDelete st.servers f = [] := by
    rw [hservers, mapDelete_cons, if_pos rfl, mapDelete_nil]
  have hu : unregisterHostnames [f] st
      = ⟨[], st.nextHandle, st.created, st.shutdowns ++ [hf],
          st.events ++ [Event.shutdown f hf]⟩ := by
    simp only [unregisterHostnames, hlF, hdelF]
  unfold updateFunc
  rw [hold, hnew]
  simp only [hne, if_false, ite_false, hu]
  constructor
  · simp only [registerHostnames, registerLoop, hrB, haB, if_true]
    simp [recoverSt, List.append_assoc]
  · rw [hservers]
    simp [replayStates, List.scanl, applyEvent, mapDelete_cons, mapDelete_nil, mapInsert]

/-- Witness for the amended C5 at concrete inputs. -/
theorem update_single_host_states_witness :
    (updateFunc ".local" resolve0 advOK0 oldIngFoo newIngBar stFoo).events
        = stFoo.events ++ [Event.shutdown F0 0, Event.advertise B0 stFoo.nextHandle] ∧
    replayStates stFoo.servers [Event.shutdown F0 0, Event.advertise B0 stFoo.nextHandle]
        = [[(F0, 0)], [], [(B0, stFoo.nextHandle)]] :=
  update_single_host_states resolve0 advOK0 F0 B0 0 oldIngFoo newIngBar stFoo
    (by decide) (by decide) (by decide) rfl 80 rfl rfl

/-! ## The Target Resolver -/

/-- C8.  The per-record resolver returned by `getPortMapper` selects the
secure port identifier when `record.TLS` holds and the cleartext
identifier otherwise; it returns the mapped numeric port exactly when that
identifier is present in the prefetched mapping, and otherwise an error
carrying the hostname, the chosen port identifier, and the service name.
The mapping itself is built at startup by `getPortMap`, a total fold over
the service's declared ports that never fails for identifiers no hostname
uses — the lookup failure can only arise on the per-record call. -/
theorem getPortMapper_per_record (ports : List ServicePort)
    (cleartextPort tlsPort : IntOrString) (serviceFQName : String) (lh : LocalHostname) :
    (∀ p : Int,
        mapLookup (getPortMap ports) (if lh.TLS then tlsPort else cleartextPort) = some p →
        getPortMapper (getPortMap ports) cleartextPort tlsPort serviceFQName lh
          = Except.ok p) ∧
    (mapLookup (getPortMap ports) (if lh.TLS then tlsPort else cleartextPort) = none →
        getPortMapper (getPortMap ports) cleartextPort tlsPort serviceFQName lh
          = Except.error
              ⟨lh.Hostname, if lh.TLS then tlsPort else cleartextPort, serviceFQName⟩) := by
  cases htls : lh.TLS with
  | true =>
    constructor
    · intro p hp
      rw [if_pos rfl] at hp
      simp only [getPortMapper, htls, if_true, hp]
    · intro hp
      rw [if_pos rfl] at hp
      simp only [getPortMapper, htls, if_true, hp]
  | false =>
    constructor
    · intro p hp
      rw [if_neg Bool.false_ne_true] at hp
      simp only [getPortMapper, htls, Bool.false_eq_true, if_false, hp]
    · intro hp
      rw [if_neg Bool.false_ne_true] at hp
      simp only [getPortMapper, htls, Bool.false_eq_true, if_false, hp]

/-- A service declaring only a cleartext port named `http`. -/
def portsHttpOnly : List ServicePort := [⟨IntOrString.str "http", 30080⟩]

/-- Witness for C8 at concrete inputs: with only `http` declared, a
cleartext record resolves to `30080` and a TLS record fails with the error
naming the hostname, the `https` identifier, and the service. -/
theorem getPortMapper_per_record_witness :
    getPortMapper (getPortMap portsHttpOnly) (IntOrString.str "http") (IntOrString.str "https")
        "ingress.kube-system" ⟨false, "foo"⟩ = Except.ok 30080 ∧
    getPortMapper (getPortMap portsHttpOnly) (IntOrString.str "http") (IntOrString.str "https")
        "ingress.kube-system" ⟨true, "foo"⟩
      = Except.error ⟨"foo", IntOrString.str "https", "ingress.kube-system"⟩ :=
  ⟨(getPortMapper_per_record portsHttpOnly (IntOrString.str "http") (IntOrString.str "https")
      "ingress.kube-system" ⟨false, "foo"⟩).1 30080 (by decide),
    (getPortMapper_per_record portsHttpOnly (IntOrString.str "http") (IntOrString.str "https")
      "ingress.kube-system" ⟨true, "foo"⟩).2 (by decide)⟩

end IngressMdns
